import Mathlib

/-!
Verification of the scafflater merge/annotation core against its source.

The development shallowly embeds the JavaScript sources:
  - src/packages/scafflater/options/index.js        (ScafflaterOptions)
  - src/packages/scafflater/config-provider/index.js (ConfigProvider)
  - src/packages/scafflater/generator/processors/processor.js (Processor)
  - src/unnamed/part_000                             (Scafflater.runPartial)

JavaScript objects are modelled as ordered association lists of string keys
and JSON-like values; object spread and property assignment are modelled by
an order-preserving insert.  Strings are modelled as lists of characters;
offsets are character indices (the JavaScript sources use UTF-16 code-unit
indices, which coincide on the inputs considered here).  Filesystem reads are
modelled by passing the read value as an argument; logging calls, which only
write to a logger, are not modelled.
-/

namespace Scafflater

/-- A JavaScript/JSON value.  `num` keeps the numeric lexeme (no claim
computes with numbers), `undef` is the JavaScript undefined, and `ref` is an
object reference that the model does not open up (the winston logger held by
the options object). -/
inductive JsonVal where
  | null : JsonVal
  | undef : JsonVal
  | bool : Bool → JsonVal
  | num : String → JsonVal
  | str : String → JsonVal
  | arr : List JsonVal → JsonVal
  | obj : List (String × JsonVal) → JsonVal
  | ref : String → JsonVal

/-- An ordered JavaScript object: keys in insertion order. -/
abbrev Obj := List (String × JsonVal)

/-- Property read on an ordered object: the first binding of the key. -/
def objLookup : Obj → String → Option JsonVal
  | [], _ => none
  | p :: t, k => if p.1 = k then some p.2 else objLookup t k

/-- The last binding of a key in a raw binding list (what a JavaScript object
built from that list in order would hold at the key). -/
def lookupLast : Obj → String → Option JsonVal
  | [], _ => none
  | p :: t, k =>
    match lookupLast t k with
    | some v => some v
    | none => if p.1 = k then some p.2 else none

/-- Overwrites every binding of the key, appending nothing. -/
def objReplace : Obj → String × JsonVal → Obj
  | [], _ => []
  | p :: t, kv =>
    if p.1 = kv.1 then (p.1, kv.2) :: objReplace t kv else p :: objReplace t kv

/-- JavaScript property assignment on an ordered object: an existing key
keeps its position and takes the new value, a new key is appended. -/
def objInsert : Obj → String × JsonVal → Obj
  | [], kv => [kv]
  | p :: t, kv => if p.1 = kv.1 then (p.1, kv.2) :: objReplace t kv else p :: objInsert t kv

/-- JavaScript object spread `\x7b ...a, ...b \x7d`: the bindings of `b`
assigned onto a copy of `a` in order. -/
def mergeObj (a b : Obj) : Obj := b.foldl objInsert a

/-- JavaScript property access `v[k]`: a lookup on objects, undefined
otherwise (the sources only read properties of objects). -/
def jsGet (v : JsonVal) (k : String) : JsonVal :=
  match v with
  | .obj o => (objLookup o k).getD JsonVal.undef
  | _ => JsonVal.undef

/-- JavaScript property assignment `v[k] = x` for an object value; values
that are not objects are returned unchanged (assignment on them either
throws or is dropped, and the modelled call sites only assign on objects). -/
def jsSet (v : JsonVal) (k : String) (x : JsonVal) : JsonVal :=
  match v with
  | .obj o => .obj (objInsert o (k, x))
  | w => w

/-- JavaScript truthiness.  The numeric case approximates: only the lexemes
0 and -0 are falsy (the modelled call sites test objects and undefined). -/
def jsTruthy : JsonVal → Bool
  | .null => false
  | JsonVal.undef => false
  | .bool b => b
  | .num s => !(s = "0" || s = "-0")
  | .str s => !s.isEmpty
  | .arr _ => true
  | .obj _ => true
  | .ref _ => true

/-- JavaScript string coercion, as a template literal applies it.  The array
and object cases are shallow (the modelled call sites coerce strings; an
array would coerce to its joined elements and a plain object to
[object Object]). -/
def jsToString : JsonVal → String
  | .null => "null"
  | JsonVal.undef => "undefined"
  | .bool true => "true"
  | .bool false => "false"
  | .num s => s
  | .str s => s
  | .arr _ => ""
  | .obj _ => "[object Object]"
  | .ref n => n

/-- Reads a property of the options object and coerces it to a string, as
the template literals in the source do with the marker fields. -/
def propStr (self : Obj) (k : String) : String :=
  jsToString ((objLookup self k).getD JsonVal.undef)

/-- The class fields of ScafflaterOptions with their default values, in
declaration order (src/packages/scafflater/options/index.js).  Braces inside
string values are written with the \x7b and \x7d escapes. -/
def defaultsObj : Obj := [
  ("lineCommentTemplate", .str "# \x7b\x7b\x7bcomment\x7d\x7d\x7d"),
  ("startRegionMarker", .str "@scf-region"),
  ("endRegionMarker", .str "@end-scf-region"),
  ("optionMarker", .str "@scf-option"),
  ("targetName", .null),
  ("ignore", JsonVal.undef),
  ("logRun", .bool true),
  ("annotate", .bool false),
  ("annotationTemplate", .str "\x7b\x7b#lineComment this\x7d\x7d\x7b\x7b\x7boptions.startRegionMarker\x7d\x7d\x7d\x7b\x7b/lineComment\x7d\x7d\n\x7b\x7b#lineComment this\x7d\x7dThis code was generated by scafflater\x7b\x7b/lineComment\x7d\x7d\n\x7b\x7b#lineComment this\x7d\x7d@template \x7b\x7b\x7btemplate.name\x7d\x7d\x7d (v\x7b\x7b\x7btemplate.version\x7d\x7d\x7d)\x7b\x7b/lineComment\x7d\x7d\n\x7b\x7b#lineComment this\x7d\x7d@partial \x7b\x7b\x7bpartial.name\x7d\x7d\x7d\x7b\x7b/lineComment\x7d\x7d\n\x7b\x7b#each parameters \x7d\x7d\n\x7b\x7b#lineComment this\x7d\x7d@\x7b\x7b\x7b@key\x7d\x7d\x7d \x7b\x7b\x7bthis\x7d\x7d\x7d\x7b\x7b/lineComment\x7d\x7d\n\x7b\x7b/each\x7d\x7d\n\n\x7b\x7b\x7bcontent\x7d\x7d\x7d\n\n\x7b\x7b#lineComment this\x7d\x7d\x7b\x7b\x7boptions.endRegionMarker\x7d\x7d\x7d\x7b\x7b/lineComment\x7d\x7d"),
  ("appendStrategy", .str "append"),
  ("mode", .str "prod"),
  ("processors", .arr [.str "./processors/handlebars-processor"]),
  ("appenders", .arr [.str "./appenders/region-appender", .str "./appenders/appender"]),
  ("arrayAppendStrategy", .str "combine"),
  ("scfFolderName", .str ".scafflater"),
  ("scfFileName", .str "scafflater.jsonc"),
  ("initFolderName", .str "init"),
  ("partialsFolderName", .str "partials"),
  ("hooksFolderName", .str "hooks"),
  ("helpersFolderName", .str "helpers"),
  ("extensionFolderName", .str "extension"),
  ("cacheStorage", .str "tempDir"),
  ("cacheStorages", .obj [
    ("tempDir", .str "./temp-dir-cache/index.js"),
    ("homeDir", .str "./home-dir-cache/index.js")]),
  ("source", .str "isomorphicGit"),
  ("sources", .obj [
    ("octokit", .str "./octokit-template-source/index.js"),
    ("git", .str "./git-template-source/index.js"),
    ("githubClient", .str "./github-client-template-source/index.js"),
    ("isomorphicGit", .str "./isomorphic-git-template-source/index.js"),
    ("localFolder", .str "./local-folder-template-source/index.js"),
    ("package", .str "./package-template-source/index.js")]),
  ("githubBaseUrlApi", .str "https://api.github.com"),
  ("githubBaseUrl", .str "https://github.com"),
  ("githubUsername", .null),
  ("githubPassword", .null),
  ("logger", .ref "winston-logger")]

/-- The constructor `new ScafflaterOptions(options)`: the class fields are
initialised to their defaults, then `for (const option in options)
this[option] = options[option]` assigns every binding of the argument in
order.  The constructor body also sets `this.logger.level` when
`this.mode === "debug"`; that writes into the shared winston logger object,
not into a field of the new instance, and is outside the modelled state. -/
def optionsNew (options : Obj) : Obj := mergeObj defaultsObj options

/-- The JavaScript \s class restricted to the characters that can occur in
the modelled inputs (ASCII whitespace, no-break space, BOM). -/
def isJsWs (c : Char) : Bool :=
  c = ' ' || c = '\t' || c = '\n' || c = '\x0b' || c = '\x0c' || c = '\r' ||
  c = '\u00A0' || c = '\uFEFF'

/-- ASCII lowercasing, for the i flag of the source regexes. -/
def charLower (c : Char) : Char :=
  if 'A' ≤ c && c ≤ 'Z' then Char.ofNat (c.toNat + 32) else c

/-- Case-insensitive prefix test (the i flag of the source regexes). -/
def isPrefixCI : List Char → List Char → Bool
  | [], _ => true
  | _ :: _, [] => false
  | p :: ps, c :: cs => charLower p = charLower c && isPrefixCI ps cs

/-- All start offsets of case-insensitive occurrences of `pat` in `l`, in
increasing order. -/
def occurrencesCI (pat l : List Char) : List Nat :=
  (List.range (l.length + 1)).filter (fun i => isPrefixCI pat (l.drop i))

/-- Whether `pat` occurs in `l`, case-insensitively. -/
def containsCI (pat l : List Char) : Bool :=
  (List.range (l.length + 1)).any (fun i => isPrefixCI pat (l.drop i))

/-- The lines of a text, split at every newline character ("a\n" has the two
lines "a" and ""). -/
def splitNL : List Char → List (List Char)
  | [] => [[]]
  | c :: t =>
    match splitNL t with
    | [] => [[c]]
    | h :: r => if c = '\n' then [] :: h :: r else (c :: h) :: r

/-- Pairs every line with the offset of its first character, the first line
starting at `i`. -/
def withOffsets (i : Nat) : List (List Char) → List (Nat × List Char)
  | [] => []
  | l :: ls => (i, l) :: withOffsets (i + l.length + 1) ls

/-- The first index at or after `i` whose character is not JavaScript
whitespace (the greedy \s* of the source regexes). -/
def skipWsIdx (line : List Char) : Nat → Nat → Nat
  | 0, i => i
  | Nat.succ fuel, i =>
    if i < line.length && isJsWs (line.getD i ' ') then skipWsIdx line fuel (i + 1) else i

/-- All positions of character `ch` in `line` at or after `from_`, largest
first (the backtracking order of a greedy .* before that character). -/
def posOfRev (ch : Char) (line : List Char) (from_ : Nat) : List Nat :=
  ((List.range line.length).filter (fun r => from_ ≤ r && line.getD r ' ' = ch)).reverse

/-- The matcher of the tail `((\x7b.*\x7d|".*"|[^\x7d])*?)\x7d` of the json
group of the option regex in ScafflaterOptions.getConfigFromString, started
at index `i` of the line: the index of the closing brace of the match the
backtracking regex engine settles on, or none.  The lazy repetition first
tries to close, then one more iteration whose alternatives are tried in
order: a brace-delimited run (inner .* greedy, so its closing brace is tried
from the last one backwards), a quote-delimited run (likewise), and any
single character other than a closing brace. -/
def lazyTail (line : List Char) : Nat → Nat → Option Nat
  | 0, _ => none
  | Nat.succ fuel, i =>
    if i < line.length then
      let c := line.getD i ' '
      if c = '\x7d' then some i
      else if c = '\x7b' then
        match (posOfRev '\x7d' line (i + 1)).findSome? (fun k => lazyTail line fuel (k + 1)) with
        | some e => some e
        | none => lazyTail line fuel (i + 1)
      else if c = '\"' then
        match (posOfRev '\"' line (i + 1)).findSome? (fun k => lazyTail line fuel (k + 1)) with
        | some e => some e
        | none => lazyTail line fuel (i + 1)
      else lazyTail line fuel (i + 1)
    else none

/-- The json capture group `(?<json>\x7b.*:((...)*?)\x7d)` started at the
opening brace at index `q` of the line: the captured characters, or none.
The greedy `.*` before the colon tries the rightmost colon first. -/
def tryJson (line : List Char) (q : Nat) : Option (List Char) :=
  (posOfRev ':' line (q + 1)).findSome? (fun r =>
    (lazyTail line (line.length + 1) (r + 1)).map (fun e => ((line.drop q).take (e - q + 1))))

/-- One line of input against the option regex
`.*marker\s*(?<json>\x7b.*:(...)*?\x7d).*` of
ScafflaterOptions.getConfigFromString (flags gi): the captured json group,
or none when the line has no match.  The leading greedy `.*` makes the
engine try marker occurrences from the rightmost one; after the marker the
greedy `\s*` must be followed by an opening brace.  Because `.` never
matches a newline, a match always lies inside one line, consumes the line to
its end, and starts (for matchAll) at the first offset of the line, so at
most one match per line arises; a directive whose marker and payload are
split across a newline inside `\s*` is outside this line model. -/
def lineDirective (marker line : List Char) : Option (List Char) :=
  ((occurrencesCI marker line).reverse).findSome? (fun m =>
    let p := skipWsIdx line (line.length + 1) (m + marker.length)
    if p < line.length && line.getD p ' ' = '\x7b' then tryJson line p else none)

/-- One match of the option regex: the match offset (`c.index`) and the
captured json group (`c.groups.json`). -/
structure DirMatch where
  index : Nat
  json : List Char

/-- All matches of the option regex over the whole text, in file order, as
`str.matchAll(configRegex)` yields them: one per line that holds a
directive, at the offset of that line. -/
def scanDirectives (marker text : List Char) : List DirMatch :=
  (withOffsets 0 (splitNL text)).filterMap (fun ol =>
    (lineDirective marker ol.2).map (fun j => ⟨ol.1, j⟩))

/-- JSON whitespace (what JSON.parse skips between tokens). -/
def skipWsJ (cs : List Char) : List Char :=
  cs.dropWhile (fun c => c = ' ' || c = '\t' || c = '\n' || c = '\r')

/-- The value of a hexadecimal digit, 0 for other characters. -/
def hexVal (c : Char) : Nat :=
  if '0' ≤ c && c ≤ '9' then c.toNat - 48
  else if 'a' ≤ c && c ≤ 'f' then c.toNat - 87
  else if 'A' ≤ c && c ≤ 'F' then c.toNat - 55
  else 0

/-- Whether a character is a hexadecimal digit. -/
def isHex (c : Char) : Bool :=
  ('0' ≤ c && c ≤ '9') || ('a' ≤ c && c ≤ 'f') || ('A' ≤ c && c ≤ 'F')

/-- The body of a JSON string after its opening quote: the decoded
characters and the rest of the input after the closing quote.  Control
characters must be escaped; the escapes are the JSON ones. -/
def parseStrRest : Nat → List Char → Option (List Char × List Char)
  | 0, _ => none
  | Nat.succ fuel, cs =>
    match cs with
    | [] => none
    | '\"' :: t => some ([], t)
    | '\\' :: e :: t =>
      match e with
      | '\"' => (parseStrRest fuel t).map (fun sr => ('\"' :: sr.1, sr.2))
      | '\\' => (parseStrRest fuel t).map (fun sr => ('\\' :: sr.1, sr.2))
      | '/' => (parseStrRest fuel t).map (fun sr => ('/' :: sr.1, sr.2))
      | 'b' => (parseStrRest fuel t).map (fun sr => ('\x08' :: sr.1, sr.2))
      | 'f' => (parseStrRest fuel t).map (fun sr => ('\x0c' :: sr.1, sr.2))
      | 'n' => (parseStrRest fuel t).map (fun sr => ('\n' :: sr.1, sr.2))
      | 'r' => (parseStrRest fuel t).map (fun sr => ('\r' :: sr.1, sr.2))
      | 't' => (parseStrRest fuel t).map (fun sr => ('\t' :: sr.1, sr.2))
      | 'u' =>
        match t with
        | a :: b :: c :: d :: t2 =>
          if isHex a && isHex b && isHex c && isHex d then
            let n := ((hexVal a * 16 + hexVal b) * 16 + hexVal c) * 16 + hexVal d
            (parseStrRest fuel t2).map (fun sr => (Char.ofNat n :: sr.1, sr.2))
          else none
        | _ => none
      | _ => none
    | c :: t =>
      if c.toNat < 32 then none
      else (parseStrRest fuel t).map (fun sr => (c :: sr.1, sr.2))

/-- The optional fraction part of a JSON number: its characters and the
rest.  A dot must be followed by at least one digit. -/
def parseFracPart (cs : List Char) : Option (List Char × List Char) :=
  match cs with
  | '.' :: t =>
    let ds := t.takeWhile Char.isDigit
    if ds.isEmpty then none else some ('.' :: ds, t.dropWhile Char.isDigit)
  | _ => some ([], cs)

/-- The optional exponent part of a JSON number: its characters and the
rest.  An e or E takes an optional sign and at least one digit. -/
def parseExpPart (cs : List Char) : Option (List Char × List Char) :=
  match cs with
  | c :: t =>
    if c = 'e' || c = 'E' then
      match t with
      | s :: t2 =>
        if s = '+' || s = '-' then
          let ds := t2.takeWhile Char.isDigit
          if ds.isEmpty then none else some (c :: s :: ds, t2.dropWhile Char.isDigit)
        else
          let ds := t.takeWhile Char.isDigit
          if ds.isEmpty then none else some (c :: ds, t.dropWhile Char.isDigit)
      | [] => none
    else some ([], cs)
  | [] => some ([], cs)

/-- The integer part of a JSON number being read: glues the fraction and
exponent parts onto the lexeme read so far. -/
def afterIntPart (acc : List Char) (cs : List Char) : Option (List Char × List Char) :=
  match parseFracPart cs with
  | none => none
  | some fr =>
    match parseExpPart fr.2 with
    | none => none
    | some xr => some (acc ++ fr.1 ++ xr.1, xr.2)

/-- A JSON number at the head of the input: its lexeme and the rest.  The
integer part is 0 or starts with a nonzero digit (JSON). -/
def parseNum (cs : List Char) : Option (List Char × List Char) :=
  match cs with
  | '-' :: t =>
    (match t with
     | '0' :: t2 => afterIntPart ['-', '0'] t2
     | c :: t2 =>
       if c.isDigit then afterIntPart ('-' :: c :: t2.takeWhile Char.isDigit) (t2.dropWhile Char.isDigit)
       else none
     | [] => none)
  | '0' :: t => afterIntPart ['0'] t
  | c :: t =>
    if c.isDigit then afterIntPart (c :: t.takeWhile Char.isDigit) (t.dropWhile Char.isDigit)
    else none
  | [] => none

mutual

/-- A JSON value at the head of the input (JSON.parse grammar): the value
and the rest of the input, or none. -/
def parseVal : Nat → List Char → Option (JsonVal × List Char)
  | 0, _ => none
  | Nat.succ fuel, cs =>
    match skipWsJ cs with
    | '\x7b' :: t =>
      (match skipWsJ t with
       | '\x7d' :: r => some (.obj [], r)
       | _ => parseMembers fuel t [])
    | '[' :: t =>
      (match skipWsJ t with
       | ']' :: r => some (.arr [], r)
       | _ => parseElems fuel t [])
    | '\"' :: t => (parseStrRest (t.length + 1) t).map (fun sr => (.str (String.mk sr.1), sr.2))
    | 't' :: 'r' :: 'u' :: 'e' :: r => some (.bool true, r)
    | 'f' :: 'a' :: 'l' :: 's' :: 'e' :: r => some (.bool false, r)
    | 'n' :: 'u' :: 'l' :: 'l' :: r => some (.null, r)
    | rest => (parseNum rest).map (fun lr => (.num (String.mk lr.1), lr.2))

/-- The members of a JSON object after its opening brace (or after a comma):
later bindings of a repeated key overwrite earlier ones, as JSON.parse
builds the object by assignment. -/
def parseMembers : Nat → List Char → Obj → Option (JsonVal × List Char)
  | 0, _, _ => none
  | Nat.succ fuel, cs, acc =>
    match skipWsJ cs with
    | '\"' :: t =>
      (match parseStrRest (t.length + 1) t with
       | none => none
       | some kr =>
         match skipWsJ kr.2 with
         | ':' :: r2 =>
           (match parseVal fuel r2 with
            | none => none
            | some vr =>
              let acc2 := objInsert acc (String.mk kr.1, vr.1)
              match skipWsJ vr.2 with
              | ',' :: r4 => parseMembers fuel r4 acc2
              | '\x7d' :: r4 => some (.obj acc2, r4)
              | _ => none)
         | _ => none)
    | _ => none

/-- The elements of a JSON array after its opening bracket (or after a
comma). -/
def parseElems : Nat → List Char → List JsonVal → Option (JsonVal × List Char)
  | 0, _, _ => none
  | Nat.succ fuel, cs, acc =>
    match parseVal fuel cs with
    | none => none
    | some vr =>
      match skipWsJ vr.2 with
      | ',' :: r2 => parseElems fuel r2 (acc ++ [vr.1])
      | ']' :: r2 => some (.arr (acc ++ [vr.1]), r2)
      | _ => none

end

/-- JSON.parse on a whole string: one value, then only whitespace. -/
def parseJson (cs : List Char) : Option JsonVal :=
  match parseVal (cs.length + 1) cs with
  | some vr => if (skipWsJ vr.2).isEmpty then some vr.1 else none
  | none => none

/-- A located annotated block, as ScafflaterOptions.getConfigFromString
consumes it: the code only reads `contentStart` and `contentEnd`.  The
identity fields of the spec (template name, version, partial name,
parameters) are not decoded here because no modelled call site reads them. -/
structure Region where
  startMarkerPos : Nat
  endMarkerPos : Nat
  contentStart : Nat
  contentEnd : Nat

/-- The first later line holding the end marker: its offset and the lines
after it. -/
def findEndLine (em : List Char) : List (Nat × List Char) → Option (Nat × List (Nat × List Char))
  | [] => none
  | ol :: rest => if containsCI em ol.2 then some (ol.1, rest) else findEndLine em rest

/-- Modelled from the spec: RegionProvider.getRegions over a list of
offset-annotated lines (the region-provider module is not among the provided
sources; only its caller in src/packages/scafflater/options/index.js is).
Spec 4.2: markers are single-line comment-prefixed tokens, matched strictly
in textual order, the first start marker pairing with the first end marker
after it; regions are non-overlapping and ordered by position.  A region
spans from its start-marker line to its end-marker line; the content starts
right after the start-marker line and ends at the end-marker line.  A start
marker with no end marker after it is a MalformedRegionError in the spec;
here it simply yields no further regions. -/
def regionScan (sm em : List Char) : Nat → List (Nat × List Char) → List Region
  | 0, _ => []
  | _, [] => []
  | Nat.succ fuel, ol :: rest =>
    if containsCI sm ol.2 then
      match findEndLine em rest with
      | some er => ⟨ol.1, er.1, ol.1 + ol.2.length + 1, er.1⟩ :: regionScan sm em fuel er.2
      | none => []
    else regionScan sm em fuel rest

/-- Modelled from the spec: `regionProvider.getRegions(str)` as
ScafflaterOptions.getConfigFromString calls it, with the markers read from
the receiver options. -/
def getRegions (self : Obj) (text : List Char) : List Region :=
  let lines := withOffsets 0 (splitNL text)
  regionScan (propStr self "startRegionMarker").data (propStr self "endRegionMarker").data
    (lines.length + 1) lines

/-- The region test of ScafflaterOptions.getConfigFromString:
`regions.findIndex((r) => r.contentStart <= c.index && r.contentEnd >= c.index) >= 0`. -/
def insideAnyRegion (regions : List Region) (i : Nat) : Bool :=
  regions.any (fun r => decide (r.contentStart ≤ i) && decide (i ≤ r.contentEnd))

/-- The for-of loop of ScafflaterOptions.getConfigFromString: each match in
order is skipped when its offset lies in a region, otherwise its json group
is parsed and spread onto the accumulated configuration;  a parse failure
throws.  The thrown message interpolates `c.groups.name`, a capture group
the option regex does not define, so it is the string undefined; the throw
site wraps the message in a plain Error, not a ConfigParseError, and names
no file. -/
def getConfigLoop (regions : List Region) : Obj → List DirMatch → Except String Obj
  | newConfig, [] => .ok newConfig
  | newConfig, c :: rest =>
    if insideAnyRegion regions c.index then getConfigLoop regions newConfig rest
    else
      match parseJson c.json with
      | some (.obj o) => getConfigLoop regions (mergeObj newConfig o) rest
      | some _ => getConfigLoop regions newConfig rest
      | none => .error "Could not parse option 'undefined'"

/-- ScafflaterOptions.getConfigFromString: scan the string for option
directives, drop those inside regions, spread the surviving payloads onto
the receiver in file order, and return a new ScafflaterOptions built from
the result. -/
def getConfigFromString (self : Obj) (str : List Char) : Except String Obj :=
  (getConfigLoop (getRegions self str) self
      (scanDirectives (propStr self "optionMarker").data str)).map optionsNew

/-- ScafflaterOptions.getFileOptions: reads the file (modelled by passing
its content) and delegates to getConfigFromString; the debug logging call is
not modelled.  An error from getConfigFromString propagates unwrapped, so no
file path is attached to it. -/
def getFileOptions (self : Obj) (fileContent : List Char) : Except String Obj :=
  getConfigFromString self fileContent

/-- The local `result` of ScafflaterOptions.getFolderOptions just before the
constructor call: a copy of the receiver, with the folder options object of
the persisted file spread over it when the file exists (`info?` is the
parsed file, none when `fsUtil.pathExists` is false) and `info.options` is
truthy. -/
def folderMergeResult (self : Obj) (info? : Option JsonVal) : Obj :=
  match info? with
  | none => self
  | some info =>
    let opts := jsGet info "options"
    if jsTruthy opts then
      mergeObj self (match opts with | .obj o => o | _ => [])
    else self

/-- ScafflaterOptions.getFolderOptions: spread the receiver, spread the
persisted folder options over it when present, and return a new
ScafflaterOptions built from the result.  The debug logging call is not
modelled. -/
def getFolderOptions (self : Obj) (info? : Option JsonVal) : Obj :=
  optionsNew (folderMergeResult self info?)

/-- ConfigProvider.mergeFolderConfig (src/packages/scafflater/config-provider):
spread the given config, then spread `info.config` over it when the file
exists and that property is truthy; no constructor is applied. -/
def mergeFolderConfig (config : Obj) (info? : Option JsonVal) : Obj :=
  match info? with
  | none => config
  | some info =>
    let c := jsGet info "config"
    if jsTruthy c then
      mergeObj config (match c with | .obj o => o | _ => [])
    else config

/-- Method-call frame of ScafflaterOptions.getFolderOptions: the pair of the
receiver after the call and the returned value.  The method body reads the
receiver only through the spread in `let result = \x7b ...this \x7d` and
contains no assignment to `this` or to a property of `this`, so the receiver
after the call is the receiver passed in. -/
def getFolderOptionsCall (self : Obj) (info? : Option JsonVal) : Obj × Obj :=
  (self, getFolderOptions self info?)

/-- Method-call frame of ScafflaterOptions.getConfigFromString, as for
getFolderOptionsCall: the body reads `this` (`let newConfig = this`) and
rebinds the local through spreads, never assigning to `this` or to a
property of `this`. -/
def getConfigFromStringCall (self : Obj) (str : List Char) : Obj × Except String Obj :=
  (self, getConfigFromString self str)

/-- Whether a character is not a newline (the body of one line). -/
def notNL (c : Char) : Bool := c ≠ '\n'

/-- One line against the strip regex
`.*marker\s*(?<json>\x7b.*\x7d).*\n?` of ScafflaterOptions.stripConfig
(flags gi): whether the line matches, that is, some occurrence of the marker
is followed by optional whitespace, an opening brace, and a closing brace
somewhere after it.  Unlike the option regex of getConfigFromString, no
colon is required.  The match consumes the whole line and its trailing
newline, so `str.replace(configRegex, "")` removes exactly the matching
lines; as for the option regex, a directive split across a newline inside
`\s*` is outside this line model. -/
def lineStripMatch (marker line : List Char) : Bool :=
  (occurrencesCI marker line).any (fun m =>
    let p := skipWsIdx line (line.length + 1) (m + marker.length)
    p < line.length && line.getD p ' ' = '\x7b' &&
      (List.range line.length).any (fun r => p < r && line.getD r ' ' = '\x7d'))

/-- The global replace of ScafflaterOptions.stripConfig as a scan over the
text: each line is kept (with its newline) or dropped (with its newline)
according to the strip regex. -/
def stripGo (marker : List Char) : Nat → List Char → List Char
  | 0, _ => []
  | _, [] => []
  | Nat.succ fuel, cs =>
    let line := cs.takeWhile notNL
    let rest := cs.dropWhile notNL
    if lineStripMatch marker line then
      match rest with
      | [] => []
      | _ :: r => stripGo marker fuel r
    else
      match rest with
      | [] => line
      | _ :: r => line ++ '\n' :: stripGo marker fuel r

/-- ScafflaterOptions.stripConfig: removes every line holding an option
directive, via a global regex replace over the whole string; the method
computes no regions and performs no containment test. -/
def stripConfig (self : Obj) (str : List Char) : List Char :=
  stripGo (propStr self "optionMarker").data (str.length + 1) str

/-- The pieces of a text, each line keeping its trailing newline when it has
one; joining the pieces gives the text back. -/
def splitKeepNL : Nat → List Char → List (List Char)
  | 0, _ => []
  | _, [] => []
  | Nat.succ fuel, cs =>
    let line := cs.takeWhile notNL
    match cs.dropWhile notNL with
    | [] => [line]
    | _ :: r => (line ++ ['\n']) :: splitKeepNL fuel r

/-- The result of one processor stage (processor.js): the context handed to
the next stage and the produced string. -/
structure ProcResult where
  context : Obj
  result : String

/-- A processor stage: anything with `process(context, input)` returning a
ProcResult (processor.js). -/
structure Processor where
  process : Obj → String → ProcResult

/-- JavaScript String.prototype.trim on the modelled whitespace set. -/
def jsTrim (s : String) : String :=
  String.mk (((s.data.dropWhile isJsWs).reverse.dropWhile isJsWs).reverse)

/-- Processor.runProcessorsPipeline: the for-of loop over the processors.
The loop starts from a shallow copy `\x7b ...context \x7d` of the context
(the same association list in this model); each step hands the stage the
current context and input and continues with the returned context and the
trimmed returned result; the final input is returned. -/
def runProcessorsPipeline : List Processor → Obj → String → String
  | [], _, input => input
  | p :: rest, context, input =>
    let r := p.process context input
    runProcessorsPipeline rest r.context (jsTrim r.result)

/-- One pipeline stage as a fold step over (context, input). -/
def pipelineStep (st : Obj × String) (p : Processor) : Obj × String :=
  let r := p.process st.1 st.2
  (r.context, jsTrim r.result)

/-- Translated from Processor.getProcessor (processor.js).  The body is
`switch ('region-processor') \x7b case value: return new RegionProcessor()
default: throw new Error(...) \x7d`; the identifier `value` is not declared
anywhere in the module, so evaluating the first case label throws a
ReferenceError before any comparison happens.  Neither the RegionProcessor
branch (RegionProcessor is also undeclared) nor the default throw
(`No processor found: name`) is reachable, whatever `name` is. -/
def getProcessor (name : String) : Except String Processor :=
  .error "ReferenceError: value is not defined"

/-- The record pushed by Scafflater.runPartial (src/unnamed/part_000):
`\x7b path: template.name/partialPath, parameters \x7d`. -/
def appliedRecord (scfConfig : JsonVal) (partialPath : String) (parameters : JsonVal) : JsonVal :=
  .obj [("path", .str (jsToString (jsGet (jsGet scfConfig "template") "name") ++ "/" ++ partialPath)),
        ("parameters", parameters)]

/-- Scafflater.runPartial (src/unnamed/part_000) from the point where the
manifest `scfConfig` has been read.  The generator call is modelled by its
outcome `generateResult`; when it throws, the method rethrows before
touching the manifest, so no write happens and the error is returned.  On
success, `if (!scfConfig.partials) scfConfig.partials = []` replaces a falsy
partials property by an empty array, one record is pushed, and the manifest
is written back; the returned value is the written manifest. -/
def runPartial (scfConfig : JsonVal) (partialPath : String) (parameters : JsonVal)
    (generateResult : Except String Unit) : Except String JsonVal :=
  match generateResult with
  | .error e => .error e
  | .ok _ =>
    let partials := match jsGet scfConfig "partials" with
      | .arr xs => xs
      | _ => []
    .ok (jsSet scfConfig "partials" (.arr (partials ++ [appliedRecord scfConfig partialPath parameters])))

theorem objLookup_objReplace (a : Obj) (kv : String × JsonVal) (k : String) :
    objLookup (objReplace a kv) k
      = if kv.1 = k then (objLookup a k).map (fun _ => kv.2) else objLookup a k := by
  induction a with
  | nil => simp [objReplace, objLookup]
  | cons p t ih =>
    by_cases hp : p.1 = kv.1 <;> by_cases hpk : p.1 = k
    · have hk : kv.1 = k := hp.symm.trans hpk
      simp [objReplace, objLookup, hp, hpk, hk]
    · have hk : ¬kv.1 = k := fun h => hpk (hp.trans h)
      simp [objReplace, objLookup, hp, hpk, hk, ih]
    · have hk : ¬kv.1 = k := fun h => hp (hpk.trans h.symm)
      have hk2 : ¬k = kv.1 := fun h => hk h.symm
      simp [objReplace, objLookup, hp, hpk, hk, hk2]
    · simp [objReplace, objLookup, hp, hpk, ih]

theorem lookupLast_objReplace (a : Obj) (kv : String × JsonVal) (k : String) :
    lookupLast (objReplace a kv) k
      = if kv.1 = k then (lookupLast a k).map (fun _ => kv.2) else lookupLast a k := by
  induction a with
  | nil => simp [objReplace, lookupLast]
  | cons p t ih =>
    by_cases hp : p.1 = kv.1 <;> by_cases hpk : p.1 = k
    · have hk : kv.1 = k := hp.symm.trans hpk
      simp only [objReplace, hp, if_pos, lookupLast, ih, hk, hpk]
      cases lookupLast t k <;> simp
    · have hk : ¬kv.1 = k := fun h => hpk (hp.trans h)
      simp only [objReplace, hp, if_pos, lookupLast, ih, hk, hpk, if_neg]
      cases lookupLast t k <;> simp [hk, hpk]
    · have hk : ¬kv.1 = k := fun h => hp (hpk.trans h.symm)
      have hk2 : ¬k = kv.1 := fun h => hk h.symm
      simp only [objReplace, hp, lookupLast, ih, hk, hk2, hpk, if_neg, if_pos]
      cases lookupLast t k <;> simp [hk, hk2, hpk, lookupLast, objReplace, ih]
    · simp only [objReplace, hp, lookupLast, ih, hpk, if_neg]
      cases lookupLast t k <;> by_cases hk : kv.1 = k <;> simp [hk, hpk]

theorem objLookup_objInsert (a : Obj) (kv : String × JsonVal) (k : String) :
    objLookup (objInsert a kv) k = if kv.1 = k then some kv.2 else objLookup a k := by
  induction a with
  | nil => simp [objInsert, objLookup]
  | cons p t ih =>
    by_cases hp : p.1 = kv.1 <;> by_cases hpk : p.1 = k
    · have hk : kv.1 = k := hp.symm.trans hpk
      simp [objInsert, objLookup, hp, hpk, hk]
    · have hk : ¬kv.1 = k := fun h => hpk (hp.trans h)
      simp [objInsert, objLookup, hp, hpk, hk, objLookup_objReplace]
    · have hk : ¬kv.1 = k := fun h => hp (hpk.trans h.symm)
      have hk2 : ¬k = kv.1 := fun h => hk h.symm
      simp [objInsert, objLookup, hp, hpk, hk, hk2]
    · simp [objInsert, objLookup, hp, hpk, ih]

theorem lookupLast_objInsert (a : Obj) (kv : String × JsonVal) (k : String) :
    lookupLast (objInsert a kv) k = if kv.1 = k then some kv.2 else lookupLast a k := by
  induction a with
  | nil => simp [objInsert, lookupLast]
  | cons p t ih =>
    by_cases hp : p.1 = kv.1 <;> by_cases hpk : p.1 = k
    · have hk : kv.1 = k := hp.symm.trans hpk
      simp only [objInsert, hp, if_pos, lookupLast, lookupLast_objReplace, hk, hpk]
      cases lookupLast t k <;> simp
    · have hk : ¬kv.1 = k := fun h => hpk (hp.trans h)
      simp only [objInsert, hp, if_pos, lookupLast, lookupLast_objReplace, hk, hpk, if_neg]
      cases lookupLast t k <;> simp [hk, hpk]
    · have hk : ¬kv.1 = k := fun h => hp (hpk.trans h.symm)
      have hk2 : ¬k = kv.1 := fun h => hk h.symm
      simp only [objInsert, hp, lookupLast, ih, hk, hk2, hpk, if_neg, if_pos]
      cases lookupLast t k <;> simp [hk, hk2, hpk, lookupLast, objInsert, ih]
    · simp only [objInsert, hp, lookupLast, ih, hpk, if_neg]
      cases lookupLast t k <;> by_cases hk : kv.1 = k <;> simp [hk, hpk]

theorem objLookup_mergeObj (b : Obj) : ∀ (a : Obj) (k : String),
    objLookup (mergeObj a b) k
      = match lookupLast b k with
        | some v => some v
        | none => objLookup a k := by
  induction b with
  | nil => intro a k; simp [mergeObj, lookupLast]
  | cons kv t ih =>
    intro a k
    have hstep : mergeObj a (kv :: t) = mergeObj (objInsert a kv) t := rfl
    rw [hstep, ih]
    by_cases hk : kv.1 = k
    · cases h : lookupLast t k <;>
        simp [lookupLast, h, hk, objLookup_objInsert]
    · cases h : lookupLast t k <;>
        simp [lookupLast, h, hk, objLookup_objInsert]

theorem lookupLast_mergeObj (b : Obj) : ∀ (a : Obj) (k : String),
    lookupLast (mergeObj a b) k
      = match lookupLast b k with
        | some v => some v
        | none => lookupLast a k := by
  induction b with
  | nil => intro a k; simp [mergeObj, lookupLast]
  | cons kv t ih =>
    intro a k
    have hstep : mergeObj a (kv :: t) = mergeObj (objInsert a kv) t := rfl
    rw [hstep, ih]
    by_cases hk : kv.1 = k
    · cases h : lookupLast t k <;>
        simp [lookupLast, h, hk, lookupLast_objInsert]
    · cases h : lookupLast t k <;>
        simp [lookupLast, h, hk, lookupLast_objInsert]

theorem lookupLast_eq_none_iff (a : Obj) (k : String) :
    lookupLast a k = none ↔ objLookup a k = none := by
  induction a with
  | nil => simp [lookupLast, objLookup]
  | cons p t ih =>
    by_cases hp : p.1 = k
    · simp only [lookupLast, objLookup, hp, if_pos]
      cases ht : lookupLast t k <;> simp
    · simp only [lookupLast, objLookup, hp, if_neg]
      cases ht : lookupLast t k <;> simp [← ih, ht]

theorem objLookup_eq_none_of_not_mem (a : Obj) (k : String)
    (h : k ∉ a.map Prod.fst) : objLookup a k = none := by
  induction a with
  | nil => rfl
  | cons p t ih =>
    simp only [List.map_cons, List.mem_cons] at h
    push_neg at h
    have hp : ¬p.1 = k := fun he => h.1 he.symm
    simp [objLookup, hp, ih h.2]

theorem lookupLast_of_nodup (a : Obj) (k : String)
    (h : (a.map Prod.fst).Nodup) : lookupLast a k = objLookup a k := by
  induction a with
  | nil => rfl
  | cons p t ih =>
    rw [List.map_cons, List.nodup_cons] at h
    by_cases hp : p.1 = k
    · have hmem : k ∉ t.map Prod.fst := hp ▸ h.1
      have hnone : lookupLast t k = none :=
        (lookupLast_eq_none_iff t k).mpr (objLookup_eq_none_of_not_mem t k hmem)
      simp [lookupLast, objLookup, hp, hnone]
    · simp only [lookupLast, objLookup, hp, if_neg, ih h.2]
      cases objLookup t k <;> simp

theorem getConfigLoop_skip (R : List Region) (acc : Obj) (c : DirMatch) (l : List DirMatch)
    (h : insideAnyRegion R c.index = true) :
    getConfigLoop R acc (c :: l) = getConfigLoop R acc l := by
  simp [getConfigLoop, h]

theorem getConfigLoop_merge (R : List Region) (acc : Obj) (c : DirMatch) (l : List DirMatch)
    (o : Obj) (h : insideAnyRegion R c.index = false)
    (hp : parseJson c.json = some (.obj o)) :
    getConfigLoop R acc (c :: l) = getConfigLoop R (mergeObj acc o) l := by
  simp [getConfigLoop, h, hp]

theorem getConfigLoop_other (R : List Region) (acc : Obj) (c : DirMatch) (l : List DirMatch)
    (h : insideAnyRegion R c.index = false) (v : JsonVal) (hp : parseJson c.json = some v)
    (hv : ∀ o : Obj, v ≠ .obj o) :
    getConfigLoop R acc (c :: l) = getConfigLoop R acc l := by
  cases v
  case obj o => exact absurd rfl (hv o)
  all_goals simp [getConfigLoop, h, hp]

theorem getConfigLoop_error (R : List Region) (acc : Obj) (c : DirMatch) (l : List DirMatch)
    (h : insideAnyRegion R c.index = false) (hp : parseJson c.json = none) :
    getConfigLoop R acc (c :: l) = .error "Could not parse option 'undefined'" := by
  simp [getConfigLoop, h, hp]

theorem getConfigLoop_append (R : List Region) (l₂ : List DirMatch) : ∀ (l₁ : List DirMatch) (acc : Obj),
    getConfigLoop R acc (l₁ ++ l₂)
      = (getConfigLoop R acc l₁).bind (fun m => getConfigLoop R m l₂) := by
  intro l₁
  induction l₁ with
  | nil => intro acc; rfl
  | cons c t ih =>
    intro acc
    rw [List.cons_append]
    by_cases hin : insideAnyRegion R c.index
    · rw [getConfigLoop_skip R acc c (t ++ l₂) hin, ih, ← getConfigLoop_skip R acc c t hin]
    · have hin2 : insideAnyRegion R c.index = false := eq_false_of_ne_true hin
      cases hp : parseJson c.json with
      | none =>
        rw [getConfigLoop_error R acc c (t ++ l₂) hin2 hp,
          getConfigLoop_error R acc c t hin2 hp]
        rfl
      | some v =>
        by_cases hobj : ∃ o : Obj, v = .obj o
        · obtain ⟨o, rfl⟩ := hobj
          rw [getConfigLoop_merge R acc c (t ++ l₂) o hin2 hp, ih,
            getConfigLoop_merge R acc c t o hin2 hp]
        · have hv : ∀ o : Obj, v ≠ .obj o := fun o he => hobj ⟨o, he⟩
          rw [getConfigLoop_other R acc c (t ++ l₂) hin2 v hp hv, ih,
            getConfigLoop_other R acc c t hin2 v hp hv]

theorem getConfigLoop_ok_split (R : List Region) (l₁ l₂ : List DirMatch) (acc m : Obj)
    (h : getConfigLoop R acc (l₁ ++ l₂) = .ok m) :
    ∃ m₁, getConfigLoop R acc l₁ = .ok m₁ ∧ getConfigLoop R m₁ l₂ = .ok m := by
  rw [getConfigLoop_append] at h
  cases h₁ : getConfigLoop R acc l₁ with
  | error e => rw [h₁] at h; exact absurd h (by simp [Except.bind])
  | ok m₁ => rw [h₁] at h; exact ⟨m₁, rfl, h⟩

theorem getConfigLoop_preserve (R : List Region) (k : String) : ∀ (l : List DirMatch) (acc m : Obj),
    getConfigLoop R acc l = .ok m →
    (∀ c ∈ l, insideAnyRegion R c.index = false →
      ∀ o : Obj, parseJson c.json = some (.obj o) → lookupLast o k = none) →
    objLookup m k = objLookup acc k ∧ lookupLast m k = lookupLast acc k := by
  intro l
  induction l with
  | nil =>
    intro acc m h _
    simp only [getConfigLoop, Except.ok.injEq] at h
    subst h; exact ⟨rfl, rfl⟩
  | cons c t ih =>
    intro acc m h hall
    have hall2 : ∀ c ∈ t, insideAnyRegion R c.index = false →
        ∀ o : Obj, parseJson c.json = some (.obj o) → lookupLast o k = none :=
      fun d hd => hall d (List.mem_cons_of_mem c hd)
    by_cases hin : insideAnyRegion R c.index
    · rw [getConfigLoop_skip R acc c t hin] at h
      exact ih acc m h hall2
    · have hin2 : insideAnyRegion R c.index = false := eq_false_of_ne_true hin
      cases hp : parseJson c.json with
      | none => rw [getConfigLoop_error R acc c t hin2 hp] at h; exact absurd h (by simp)
      | some v =>
        by_cases hobj : ∃ o : Obj, v = .obj o
        · obtain ⟨o, rfl⟩ := hobj
          rw [getConfigLoop_merge R acc c t o hin2 hp] at h
          have hnone : lookupLast o k = none := hall c (List.mem_cons_self c t) hin2 o hp
          have hrec := ih (mergeObj acc o) m h hall2
          have h1 : objLookup (mergeObj acc o) k = objLookup acc k := by
            rw [objLookup_mergeObj, hnone]
          have h2 : lookupLast (mergeObj acc o) k = lookupLast acc k := by
            rw [lookupLast_mergeObj, hnone]
          exact ⟨hrec.1.trans h1, hrec.2.trans h2⟩
        · have hv : ∀ o : Obj, v ≠ .obj o := fun o he => hobj ⟨o, he⟩
          rw [getConfigLoop_other R acc c t hin2 v hp hv] at h
          exact ih acc m h hall2

/-- The pieces of a text: splitKeepNL with enough fuel for the whole text. -/
def splitPieces (s : List Char) : List (List Char) :=
  splitKeepNL (s.length + 1) s

theorem takeWhile_self {α : Type} (p : α → Bool) (l : List α) :
    (l.takeWhile p).takeWhile p = l.takeWhile p := by
  induction l with
  | nil => rfl
  | cons c t ih =>
    by_cases hc : p c
    · simp [List.takeWhile, hc, ih]
    · simp [List.takeWhile, hc]

theorem takeWhile_append_stop {α : Type} (p : α → Bool) (l : List α) (a : α)
    (ha : p a = false) : (l.takeWhile p ++ [a]).takeWhile p = l.takeWhile p := by
  induction l with
  | nil => simp [List.takeWhile, ha]
  | cons c t ih =>
    by_cases hc : p c
    · simp [List.takeWhile, hc, ih]
    · simp [List.takeWhile, hc, ha]

theorem dropWhile_length_le {α : Type} (p : α → Bool) (l : List α) :
    (l.dropWhile p).length ≤ l.length := by
  induction l with
  | nil => simp [List.dropWhile]
  | cons c t ih =>
    by_cases hc : p c
    · simp only [List.dropWhile, hc, if_pos]
      exact Nat.le_succ_of_le ih
    · simp [List.dropWhile, hc]

theorem stripGo_eq_filter (marker : List Char) : ∀ (fuel : Nat) (cs : List Char),
    cs.length < fuel →
    stripGo marker fuel cs
      = ((splitKeepNL fuel cs).filter
          (fun p => !(lineStripMatch marker (p.takeWhile notNL)))).flatten := by
  intro fuel
  induction fuel with
  | zero => intro cs h; exact absurd h (Nat.not_lt_zero _)
  | succ fuel ih =>
    intro cs hlen
    cases cs with
    | nil => rfl
    | cons c t =>
      have hline : ((c :: t).takeWhile notNL).takeWhile notNL
          = (c :: t).takeWhile notNL := takeWhile_self _ _
      have hlineNL : (((c :: t).takeWhile notNL) ++ ['\n']).takeWhile notNL
          = (c :: t).takeWhile notNL :=
        takeWhile_append_stop _ (c :: t) '\n' (by decide)
      have hrest : ((c :: t).dropWhile notNL).length ≤ (c :: t).length :=
        dropWhile_length_le _ _
      by_cases hm : lineStripMatch marker ((c :: t).takeWhile notNL)
      · cases hdrop : (c :: t).dropWhile notNL with
        | nil =>
          simp only [stripGo, splitKeepNL, hdrop, hm, if_pos]
          rw [List.filter_cons]
          simp [hline, hm]
        | cons d r =>
          have hr : r.length < fuel := by
            have h1 : (d :: r).length ≤ (c :: t).length := hdrop ▸ hrest
            have h2 : (c :: t).length ≤ fuel := Nat.lt_succ_iff.mp hlen
            exact Nat.lt_of_lt_of_le (Nat.lt_of_succ_le (by simpa using h1)) h2
          simp only [stripGo, splitKeepNL, hdrop, hm, if_pos]
          rw [ih r hr, List.filter_cons]
          simp [hlineNL, hm]
      · cases hdrop : (c :: t).dropWhile notNL with
        | nil =>
          simp only [stripGo, splitKeepNL, hdrop, hm, if_neg]
          rw [List.filter_cons]
          simp [hline, hm]
        | cons d r =>
          have hr : r.length < fuel := by
            have h1 : (d :: r).length ≤ (c :: t).length := hdrop ▸ hrest
            have h2 : (c :: t).length ≤ fuel := Nat.lt_succ_iff.mp hlen
            exact Nat.lt_of_lt_of_le (Nat.lt_of_succ_le (by simpa using h1)) h2
          simp only [stripGo, splitKeepNL, hdrop, hm, if_neg]
          rw [ih r hr, List.filter_cons]
          simp [hlineNL, hm]

theorem runPipeline_eq_foldl : ∀ (ps : List Processor) (context : Obj) (input : String),
    runProcessorsPipeline ps context input = (List.foldl pipelineStep (context, input) ps).2 := by
  intro ps
  induction ps with
  | nil => intro context input; rfl
  | cons p rest ih =>
    intro context input
    simp only [runProcessorsPipeline, List.foldl_cons]
    exact ih _ _

/-- C10: running the processor pipeline with an empty processor list returns
the input string unchanged — in particular it is not trimmed — so the empty
pipeline is the identity on content. -/
theorem empty_pipeline_is_identity (context : Obj) (input : String) :
    runProcessorsPipeline [] context input = input := rfl

/-- C6: the pipeline loop equals the left fold of the per-stage step in
configured list order, where each stage consumes the previous stage's
trimmed result and returned context; folds over concatenations compose, so
no stage is skipped or reordered; and a pipeline ending in a stage returns
that last stage's trimmed result applied to the state the earlier stages
produced. -/
theorem pipeline_is_ordered_left_fold (ps : List Processor) (context : Obj) (input : String) :
    runProcessorsPipeline ps context input = (List.foldl pipelineStep (context, input) ps).2
    ∧ (∀ (l₁ l₂ : List Processor) (st : Obj × String),
        List.foldl pipelineStep st (l₁ ++ l₂)
          = List.foldl pipelineStep (List.foldl pipelineStep st l₁) l₂)
    ∧ (∀ p : Processor,
        runProcessorsPipeline (ps ++ [p]) context input
          = jsTrim (p.process (List.foldl pipelineStep (context, input) ps).1
              (List.foldl pipelineStep (context, input) ps).2).result) := by
  refine ⟨runPipeline_eq_foldl ps context input,
    fun l₁ l₂ st => List.foldl_append _ _ _ _, fun p => ?_⟩
  rw [runPipeline_eq_foldl, List.foldl_append]
  rfl

/-- C7 (code bug): Processor.getProcessor never resolves any name and never
raises the no-processor error: its switch statement evaluates the undeclared
identifier `value` as a case label, so every call — the registered name
region-processor included — fails with a ReferenceError that depends on no
argument. -/
theorem getProcessor_always_reference_error :
    (∀ name : String, getProcessor name = .error "ReferenceError: value is not defined")
    ∧ (∀ (name : String) (p : Processor), getProcessor name ≠ .ok p) :=
  ⟨fun _ => rfl, fun _ _ h => Except.noConfusion h⟩

/-- C3 (code bug): a file whose content is the malformed directive
`@scf-option \x7bbad json` resolves without any error — the option regex
requires a colon and a closing brace, so the payload never matches — and a
payload that does match the regex but is not JSON raises the message
`Could not parse option 'undefined'` (the code interpolates the undefined
capture group `name`), naming no file. -/
theorem malformed_payload_never_throws :
    getFileOptions defaultsObj ("@scf-option \x7bbad json").data = .ok (optionsNew defaultsObj)
    ∧ getFileOptions defaultsObj ("@scf-option \x7ba:\x7d").data
        = .error "Could not parse option 'undefined'" := ⟨rfl, rfl⟩

/-- C5: both resolution steps leave the receiver unchanged — their bodies
read `this` only through spreads and never assign to it — and both return an
instance freshly built by the ScafflaterOptions constructor from the merged
copy, never the receiver itself mutated in place. -/
theorem resolution_returns_fresh_instance (self : Obj) (info? : Option JsonVal) (str : List Char) :
    (getFolderOptionsCall self info?).1 = self
    ∧ (getConfigFromStringCall self str).1 = self
    ∧ (getFolderOptionsCall self info?).2 = optionsNew (folderMergeResult self info?)
    ∧ (∀ cfg : Obj, getConfigFromString self str = .ok cfg →
        ∃ m : Obj, getConfigLoop (getRegions self str) self
            (scanDirectives (propStr self "optionMarker").data str) = .ok m
          ∧ cfg = optionsNew m) := by
  refine ⟨rfl, rfl, rfl, fun cfg h => ?_⟩
  unfold getConfigFromString at h
  cases hl : getConfigLoop (getRegions self str) self
      (scanDirectives (propStr self "optionMarker").data str) with
  | error e => rw [hl] at h; exact absurd h (by simp [Except.map])
  | ok m =>
    rw [hl] at h
    exact ⟨m, rfl, by simpa [Except.map] using h.symm⟩

/-- C9: Scafflater.runPartial rewrites the manifest only after the generator
call succeeds, and then appends exactly one applied record of shape
(path, parameters) to its partials list; when generation throws, the error
propagates and the manifest is not rewritten. -/
theorem runPartial_appends_only_after_success (scf : JsonVal) (partialPath : String)
    (parameters : JsonVal) (xs : List JsonVal) (e : String)
    (hp : jsGet scf "partials" = .arr xs) :
    runPartial scf partialPath parameters (.error e) = .error e
    ∧ runPartial scf partialPath parameters (.ok ())
        = .ok (jsSet scf "partials" (.arr (xs ++ [appliedRecord scf partialPath parameters])))
    ∧ jsGet (jsSet scf "partials" (.arr (xs ++ [appliedRecord scf partialPath parameters])))
        "partials" = .arr (xs ++ [appliedRecord scf partialPath parameters])
    ∧ (xs ++ [appliedRecord scf partialPath parameters]).length = xs.length + 1 := by
  have hobj : ∃ o : Obj, scf = .obj o := by
    cases scf with
    | obj o => exact ⟨o, rfl⟩
    | null => exact absurd hp (by simp [jsGet])
    | undef => exact absurd hp (by simp [jsGet])
    | bool b => exact absurd hp (by simp [jsGet])
    | num s => exact absurd hp (by simp [jsGet])
    | str s => exact absurd hp (by simp [jsGet])
    | arr ys => exact absurd hp (by simp [jsGet])
    | ref n => exact absurd hp (by simp [jsGet])
  obtain ⟨o, rfl⟩ := hobj
  refine ⟨rfl, ?_, ?_, by simp⟩
  · simp only [runPartial, hp]
  · simp [jsSet, jsGet, objLookup_objInsert]

theorem runPartial_commit_witness :
    runPartial (.obj [("template", .obj [("name", .str "t")]), ("partials", .arr [])])
        "p" (.obj []) (.error "boom") = .error "boom"
    ∧ runPartial (.obj [("template", .obj [("name", .str "t")]), ("partials", .arr [])])
        "p" (.obj []) (.ok ())
      = .ok (jsSet (.obj [("template", .obj [("name", .str "t")]), ("partials", .arr [])])
          "partials"
          (.arr ([] ++ [appliedRecord
            (.obj [("template", .obj [("name", .str "t")]), ("partials", .arr [])])
            "p" (.obj [])]))) :=
  ⟨(runPartial_appends_only_after_success
      (.obj [("template", .obj [("name", .str "t")]), ("partials", .arr [])])
      "p" (.obj []) [] "boom" rfl).1,
   (runPartial_appends_only_after_success
      (.obj [("template", .obj [("name", .str "t")]), ("partials", .arr [])])
      "p" (.obj []) [] "boom" rfl).2.1⟩

/-- C4: folder-level resolution merges the persisted folder options object
over the current options by shallow key overwrite: a key present in the
folder object takes the folder value — an array value (such as a plugin
list) replacing the current array wholesale — and a key absent from the
folder object keeps the current value; ConfigProvider.mergeFolderConfig
behaves the same on its `config` property. -/
theorem folder_options_shallow_overwrite (self : Obj) (info : JsonVal) (o : Obj) (k : String)
    (hopts : jsGet info "options" = .obj o)
    (hod : (o.map Prod.fst).Nodup)
    (hsd : (self.map Prod.fst).Nodup) :
    (∀ v, objLookup o k = some v → objLookup (getFolderOptions self (some info)) k = some v)
    ∧ (objLookup o k = none → ∀ w, objLookup self k = some w →
        objLookup (getFolderOptions self (some info)) k = some w)
    ∧ (∀ xs, objLookup o k = some (.arr xs) →
        objLookup (getFolderOptions self (some info)) k = some (.arr xs))
    ∧ (∀ (cInfo : JsonVal) (co : Obj), jsGet cInfo "config" = .obj co →
        (co.map Prod.fst).Nodup →
        (∀ v, objLookup co k = some v →
          objLookup (mergeFolderConfig self (some cInfo)) k = some v)
        ∧ (objLookup co k = none → ∀ w, objLookup self k = some w →
            objLookup (mergeFolderConfig self (some cInfo)) k = some w)) := by
  have hmr : folderMergeResult self (some info) = mergeObj self o := by
    simp [folderMergeResult, hopts, jsTruthy]
  have hmain : objLookup (getFolderOptions self (some info)) k
      = match lookupLast o k with
        | some v => some v
        | none =>
          match lookupLast self k with
          | some w => some w
          | none => objLookup defaultsObj k := by
    unfold getFolderOptions optionsNew
    rw [hmr, objLookup_mergeObj, lookupLast_mergeObj]
    cases lookupLast o k <;> cases lookupLast self k <;> rfl
  refine ⟨?_, ?_, ?_, ?_⟩
  · intro v hv
    have hlo : lookupLast o k = some v := (lookupLast_of_nodup o k hod).trans hv
    rw [hmain, hlo]
  · intro hnone w hw
    have hlo : lookupLast o k = none := (lookupLast_eq_none_iff o k).mpr hnone
    have hls : lookupLast self k = some w := (lookupLast_of_nodup self k hsd).trans hw
    rw [hmain, hlo, hls]
  · intro xs hxs
    have hlo : lookupLast o k = some (.arr xs) := (lookupLast_of_nodup o k hod).trans hxs
    rw [hmain, hlo]
  · intro cInfo co hco hcod
    have hmr2 : mergeFolderConfig self (some cInfo) = mergeObj self co := by
      simp [mergeFolderConfig, hco, jsTruthy]
    constructor
    · intro v hv
      have hlo : lookupLast co k = some v := (lookupLast_of_nodup co k hcod).trans hv
      rw [hmr2, objLookup_mergeObj, hlo]
    · intro hnone w hw
      have hlo : lookupLast co k = none := (lookupLast_eq_none_iff co k).mpr hnone
      rw [hmr2, objLookup_mergeObj, hlo]
      exact hw

theorem folder_options_overwrite_witness :
    objLookup (getFolderOptions defaultsObj
        (some (.obj [("options", .obj [("processors", .arr [.str "x"])])])))
      "processors" = some (.arr [.str "x"]) :=
  (folder_options_shallow_overwrite defaultsObj
      (.obj [("options", .obj [("processors", .arr [.str "x"])])])
      [("processors", .arr [.str "x"])] "processors"
      rfl (by decide) (by decide)).2.2.1 [.str "x"] rfl

/-- C8 counterexample: a directive line inside an annotated region — here
the line at offset 14, which the directive scanner reports and which lies
inside the one region of the text — is removed by stripConfig, not left
untouched: the stripped text is the text minus that line. -/
theorem stripConfig_removes_region_directive :
    insideAnyRegion
        (getRegions defaultsObj
          ("# @scf-region\n# @scf-option \x7b\"a\": 1\x7d\n# @end-scf-region\n").data)
        14 = true
    ∧ scanDirectives (propStr defaultsObj "optionMarker").data
        ("# @scf-region\n# @scf-option \x7b\"a\": 1\x7d\n# @end-scf-region\n").data
      = [⟨14, ("\x7b\"a\": 1\x7d").data⟩]
    ∧ stripConfig defaultsObj
        ("# @scf-region\n# @scf-option \x7b\"a\": 1\x7d\n# @end-scf-region\n").data
      = ("# @scf-region\n# @end-scf-region\n").data :=
  ⟨rfl, rfl, rfl⟩

/-- C8 as amended: stripConfig removes exactly the lines matching the strip
pattern — the option marker followed by optional whitespace, an opening
brace and a later closing brace — wherever they stand, inside annotated
regions included; the stripped text is the concatenation of the remaining
lines, and no region containment test takes part. -/
theorem stripConfig_strips_every_directive_line (self : Obj) (s : List Char) :
    stripConfig self s
      = ((splitPieces s).filter
          (fun p => !(lineStripMatch (propStr self "optionMarker").data
            (p.takeWhile notNL)))).flatten :=
  stripGo_eq_filter _ (s.length + 1) s (Nat.lt_succ_self _)

/-- C1: a directive whose match offset lies inside a region found by the
region scanner on the same string contributes nothing to options resolution
— the resolution result equals the run over the match list with that
directive removed — while a directive outside every region is merged: the
result equals the run that spreads its parsed payload over the accumulated
configuration at its position in file order. -/
theorem directive_containment (self : Obj) (s : List Char)
    (cs₁ cs₂ : List DirMatch) (c : DirMatch)
    (hscan : scanDirectives (propStr self "optionMarker").data s = cs₁ ++ c :: cs₂) :
    (insideAnyRegion (getRegions self s) c.index = true →
      getConfigFromString self s
        = (getConfigLoop (getRegions self s) self (cs₁ ++ cs₂)).map optionsNew)
    ∧ (∀ o : Obj, insideAnyRegion (getRegions self s) c.index = false →
        parseJson c.json = some (.obj o) →
        getConfigFromString self s
          = ((getConfigLoop (getRegions self s) self cs₁).bind
              (fun m => getConfigLoop (getRegions self s) (mergeObj m o) cs₂)).map optionsNew) := by
  constructor
  · intro hin
    unfold getConfigFromString
    rw [hscan, getConfigLoop_append]
    have hfun : (fun m => getConfigLoop (getRegions self s) m (c :: cs₂))
        = fun m => getConfigLoop (getRegions self s) m cs₂ :=
      funext (fun m => getConfigLoop_skip (getRegions self s) m c cs₂ hin)
    rw [hfun, ← getConfigLoop_append]
  · intro o hin hp
    unfold getConfigFromString
    rw [hscan, getConfigLoop_append]
    have hfun : (fun m => getConfigLoop (getRegions self s) m (c :: cs₂))
        = fun m => getConfigLoop (getRegions self s) (mergeObj m o) cs₂ :=
      funext (fun m => getConfigLoop_merge (getRegions self s) m c cs₂ o hin hp)
    rw [hfun]

/-- Sample text with one directive inside the one annotated region. -/
def sampleInRegion : List Char :=
  ("# @scf-region\n# @scf-option \x7b\"annotate\": true\x7d\n# @end-scf-region\n").data

/-- Sample text with the same directive and no region. -/
def sampleOutside : List Char :=
  ("# @scf-option \x7b\"annotate\": true\x7d\n").data

theorem directive_containment_witness :
    (getConfigFromString defaultsObj sampleInRegion
      = (getConfigLoop (getRegions defaultsObj sampleInRegion) defaultsObj ([] ++ [])).map
          optionsNew)
    ∧ (getConfigFromString defaultsObj sampleOutside
      = ((getConfigLoop (getRegions defaultsObj sampleOutside) defaultsObj []).bind
          (fun m => getConfigLoop (getRegions defaultsObj sampleOutside)
            (mergeObj m [("annotate", .bool true)]) [])).map optionsNew) :=
  ⟨(directive_containment defaultsObj sampleInRegion [] []
      ⟨14, ("\x7b\"annotate\": true\x7d").data⟩ rfl).1 rfl,
   (directive_containment defaultsObj sampleOutside [] []
      ⟨0, ("\x7b\"annotate\": true\x7d").data⟩ rfl).2
     [("annotate", .bool true)] rfl rfl⟩

/-- C2: when two directives outside every region set the same key, the
resolution merges them in file order and the returned options hold the value
of the later (larger-offset) directive at that key, provided every later
surviving directive leaves the key alone. -/
theorem later_directive_wins (self : Obj) (s : List Char) (k : String)
    (cs₁ cs₂ cs₃ : List DirMatch) (c₁ c₂ : DirMatch) (o₁ o₂ : Obj)
    (v₁ v₂ : JsonVal) (cfg : Obj)
    (hscan : scanDirectives (propStr self "optionMarker").data s
      = cs₁ ++ c₁ :: (cs₂ ++ c₂ :: cs₃))
    (h1out : insideAnyRegion (getRegions self s) c₁.index = false)
    (h2out : insideAnyRegion (getRegions self s) c₂.index = false)
    (hp1 : parseJson c₁.json = some (.obj o₁))
    (hp2 : parseJson c₂.json = some (.obj o₂))
    (hk1 : lookupLast o₁ k = some v₁)
    (hk2 : lookupLast o₂ k = some v₂)
    (h3 : ∀ c ∈ cs₃, insideAnyRegion (getRegions self s) c.index = false →
      ∀ o : Obj, parseJson c.json = some (.obj o) → lookupLast o k = none)
    (hok : getConfigFromString self s = .ok cfg) :
    objLookup cfg k = some v₂ := by
  unfold getConfigFromString at hok
  rw [hscan] at hok
  cases hl : getConfigLoop (getRegions self s) self (cs₁ ++ c₁ :: (cs₂ ++ c₂ :: cs₃)) with
  | error e => rw [hl] at hok; exact absurd hok (by simp [Except.map])
  | ok m =>
    rw [hl] at hok
    have hcfg : cfg = optionsNew m := by simpa [Except.map] using hok.symm
    obtain ⟨m₁, hm₁, hrest⟩ :=
      getConfigLoop_ok_split (getRegions self s) cs₁ (c₁ :: (cs₂ ++ c₂ :: cs₃)) self m hl
    rw [getConfigLoop_merge (getRegions self s) m₁ c₁ _ o₁ h1out hp1] at hrest
    obtain ⟨m₂, hm₂, hrest2⟩ :=
      getConfigLoop_ok_split (getRegions self s) cs₂ (c₂ :: cs₃) (mergeObj m₁ o₁) m hrest
    rw [getConfigLoop_merge (getRegions self s) m₂ c₂ cs₃ o₂ h2out hp2] at hrest2
    have hpres := getConfigLoop_preserve (getRegions self s) k cs₃ (mergeObj m₂ o₂) m hrest2 h3
    have hmerge : lookupLast (mergeObj m₂ o₂) k = some v₂ := by
      rw [lookupLast_mergeObj, hk2]
    have hlastm : lookupLast m k = some v₂ := hpres.2.trans hmerge
    rw [hcfg]
    unfold optionsNew
    rw [objLookup_mergeObj, hlastm]

theorem later_directive_wins_witness :
    objLookup
      (optionsNew (mergeObj (mergeObj defaultsObj [("appendStrategy", JsonVal.str "replace")])
        [("appendStrategy", JsonVal.str "ignore")]))
      "appendStrategy" = some (JsonVal.str "ignore") :=
  later_directive_wins defaultsObj
    (("# @scf-option \x7b\"appendStrategy\": \"replace\"\x7d\n" ++
      "# @scf-option \x7b\"appendStrategy\": \"ignore\"\x7d\n").data)
    "appendStrategy" [] [] []
    ⟨0, ("\x7b\"appendStrategy\": \"replace\"\x7d").data⟩
    ⟨44, ("\x7b\"appendStrategy\": \"ignore\"\x7d").data⟩
    [("appendStrategy", .str "replace")] [("appendStrategy", .str "ignore")]
    (.str "replace") (.str "ignore")
    (optionsNew (mergeObj (mergeObj defaultsObj [("appendStrategy", JsonVal.str "replace")])
      [("appendStrategy", JsonVal.str "ignore")]))
    rfl rfl rfl rfl rfl rfl rfl
    (fun c hc => absurd hc (List.not_mem_nil c))
    rfl

end Scafflater
